import Mathlib

/-!
Verification of the encrypt_secrets.py CLI utility.

The script parses two command-line arguments (a base64-encoded public key
and a plaintext secret), builds a PublicKey from the base64 text, seals the
UTF-8 bytes of the secret in a sealed box to that key, and prints the
base64-encoded ciphertext.  The CLI control flow, the base64 codec and the
PublicKey length check are embedded directly from the source.  The
sealed-box primitive itself lives in an external cryptographic library that
is not part of the repository; it is modelled from the specification
(ephemeral key exchange producing a shared secret, stream encryption of the
plaintext, and an authentication tag, with a fixed 48-byte overhead:
32 ephemeral-key bytes plus 16 tag bytes).
-/

/-- Little-endian base-256 digits of a natural number, padded or truncated
to exactly `k` bytes. -/
def natToBytes : Nat → Nat → List Nat
  | 0, _ => []
  | k + 1, n => n % 256 :: natToBytes k (n / 256)

/-- Reassemble a natural number from little-endian base-256 digits. -/
def bytesToNat : List Nat → Nat
  | [] => 0
  | b :: bs => b + 256 * bytesToNat bs

theorem natToBytes_length (k n : Nat) : (natToBytes k n).length = k := by
  induction k generalizing n with
  | zero => rfl
  | succ k ih => simp [natToBytes, ih]

theorem natToBytes_lt (k n : Nat) : ∀ b ∈ natToBytes k n, b < 256 := by
  induction k generalizing n with
  | zero => intro b hb; simp [natToBytes] at hb
  | succ k ih =>
      intro b hb
      simp only [natToBytes, List.mem_cons] at hb
      rcases hb with h | h
      · subst h; exact Nat.mod_lt _ (by norm_num)
      · exact ih _ b h

theorem bytesToNat_natToBytes (k n : Nat) :
    bytesToNat (natToBytes k n) = n % 256 ^ k := by
  induction k generalizing n with
  | zero => simp [natToBytes, bytesToNat, Nat.mod_one]
  | succ k ih =>
      simp only [natToBytes, bytesToNat, ih]
      rw [Nat.pow_succ', ← Nat.mod_mul]

/-! ## Sealed-box model

Modelled from the spec: the sealed-box primitive (PyNaCl / libsodium) is an
external library dependency whose code is not in the repository.  The spec
describes it as: generate a fresh single-use ephemeral key pair, derive a
shared secret with the recipient public key (ephemeral X25519 exchange),
encrypt the plaintext under that shared secret with an authenticated
cipher, and prepend the ephemeral public key, for a deterministic overhead
of 48 bytes (32-byte ephemeral key + 16-byte tag) on top of the plaintext
length.  The model realises this shape with modular-exponentiation
Diffie-Hellman, a keystream XOR cipher and a 16-byte tag. -/

/-- Group modulus of the Diffie-Hellman model (the Curve25519 prime). -/
def dhModulus : Nat := 2 ^ 255 - 19

/-- Generator of the Diffie-Hellman model (the Curve25519 base point). -/
def dhGen : Nat := 9

/-- Public key corresponding to a private scalar. -/
def pubOf (sk : Nat) : Nat := dhGen ^ sk % dhModulus

/-- Shared secret between a private scalar and a peer public value. -/
def dhShared (sk peer : Nat) : Nat := peer ^ sk % dhModulus

theorem dhShared_comm (a b : Nat) :
    dhShared a (pubOf b) = dhShared b (pubOf a) := by
  simp only [dhShared, pubOf]
  rw [← Nat.pow_mod, ← Nat.pow_mod, ← Nat.pow_mul, ← Nat.pow_mul,
    Nat.mul_comm]

/-- Byte `i` of the keystream derived from a shared secret. -/
def ksByte (ss i : Nat) : Nat := ss / 256 ^ (i % 32) % 256

/-- XOR a message with the keystream, starting at stream position `i`. -/
def xorStream (ss : Nat) : Nat → List Nat → List Nat
  | _, [] => []
  | i, b :: bs => (b ^^^ ksByte ss i) :: xorStream ss (i + 1) bs

theorem xorStream_length (ss i : Nat) (m : List Nat) :
    (xorStream ss i m).length = m.length := by
  induction m generalizing i with
  | nil => rfl
  | cons b bs ih => simp [xorStream, ih]

theorem xorStream_xorStream (ss i : Nat) (m : List Nat) :
    xorStream ss i (xorStream ss i m) = m := by
  induction m generalizing i with
  | nil => rfl
  | cons b bs ih =>
      simp [xorStream, ih, Nat.xor_cancel_right]

theorem xorStream_lt (ss i : Nat) (m : List Nat) (hm : ∀ b ∈ m, b < 256) :
    ∀ b ∈ xorStream ss i m, b < 256 := by
  induction m generalizing i with
  | nil => intro b hb; simp [xorStream] at hb
  | cons a bs ih =>
      intro b hb
      simp only [xorStream, List.mem_cons] at hb
      rcases hb with h | h
      · subst h
        have h1 : a < 256 := hm a (List.mem_cons_self _ _)
        have h2 : ksByte ss i < 256 := Nat.mod_lt _ (by norm_num)
        have : (256 : Nat) = 2 ^ 8 := by norm_num
        rw [this] at h1 h2 ⊢
        exact Nat.xor_lt_two_pow h1 h2
      · exact ih (i + 1) (fun x hx => hm x (List.mem_cons_of_mem _ hx)) b h

/-- Authentication tag of the model cipher: 16 bytes derived from the
shared secret and the plaintext. -/
def tagBytes (ss : Nat) (m : List Nat) : List Nat :=
  (List.range 16).map (fun i => (ss + bytesToNat m + i) % 256)

theorem tagBytes_length (ss : Nat) (m : List Nat) :
    (tagBytes ss m).length = 16 := by
  simp [tagBytes]

theorem tagBytes_lt (ss : Nat) (m : List Nat) :
    ∀ b ∈ tagBytes ss m, b < 256 := by
  intro b hb
  simp only [tagBytes, List.mem_map] at hb
  obtain ⟨i, _, hi⟩ := hb
  subst hi
  exact Nat.mod_lt _ (by norm_num)

/-- Modelled from the spec: sealed-box encryption.  `pk` is the recipient
public key as 32 bytes, `esk` is the fresh ephemeral private scalar drawn
by the library, `m` is the plaintext in bytes.  The ciphertext is the
ephemeral public key (32 bytes), the keystream-encrypted plaintext, and
the 16-byte tag. -/
def sealedBoxEncrypt (pk : List Nat) (esk : Nat) (m : List Nat) : List Nat :=
  let ss := dhShared esk (bytesToNat pk)
  natToBytes 32 (pubOf esk) ++ xorStream ss 0 m ++ tagBytes ss m

/-- Modelled from the spec: sealed-box decryption with the recipient
private scalar, the paired operation used to state round-trip claims. -/
def sealedBoxDecrypt (sk : Nat) (c : List Nat) : Option (List Nat) :=
  if c.length < 48 then none
  else
    let ss := dhShared sk (bytesToNat (c.take 32))
    let body := (c.drop 32).take (c.length - 48)
    let tag := c.drop (c.length - 16)
    let m := xorStream ss 0 body
    if tag = tagBytes ss m then some m else none

theorem sealedBoxEncrypt_length (pk : List Nat) (esk : Nat) (m : List Nat) :
    (sealedBoxEncrypt pk esk m).length = 48 + m.length := by
  simp [sealedBoxEncrypt, natToBytes_length, xorStream_length,
    tagBytes_length]
  omega

theorem pubOf_lt (y : Nat) : pubOf y < dhModulus :=
  Nat.mod_lt _ (by norm_num [dhModulus])

theorem bytesToNat_key (y : Nat) :
    bytesToNat (natToBytes 32 (pubOf y)) = pubOf y := by
  rw [bytesToNat_natToBytes]
  exact Nat.mod_eq_of_lt
    (lt_of_lt_of_le (pubOf_lt y) (by norm_num [dhModulus]))

theorem sealedBoxDecrypt_sealedBoxEncrypt (sk esk : Nat) (m : List Nat) :
    sealedBoxDecrypt sk
      (sealedBoxEncrypt (natToBytes 32 (pubOf sk)) esk m) = some m := by
  simp only [sealedBoxEncrypt, bytesToNat_key sk]
  set ss := dhShared esk (pubOf sk) with hss
  set A := natToBytes 32 (pubOf esk) with hAdef
  set B := xorStream ss 0 m with hBdef
  set C := tagBytes ss m with hCdef
  have hAlen : A.length = 32 := natToBytes_length _ _
  have hBlen : B.length = m.length := xorStream_length _ _ _
  have hClen : C.length = 16 := tagBytes_length _ _
  have hctot : (A ++ B ++ C).length = 48 + m.length := by
    simp [hAlen, hBlen, hClen]; omega
  have htake : (A ++ B ++ C).take 32 = A := by
    rw [List.append_assoc]; exact List.take_left' hAlen
  have hdropA : (A ++ B ++ C).drop 32 = B ++ C := by
    rw [List.append_assoc]; exact List.drop_left' hAlen
  have htag : (A ++ B ++ C).drop (48 + m.length - 16) = C :=
    List.drop_left' (by simp [hAlen, hBlen]; omega)
  have hbody : (B ++ C).take (48 + m.length - 48) = B := by
    have h48 : 48 + m.length - 48 = B.length := by omega
    rw [h48]; exact List.take_left _ _
  rw [sealedBoxDecrypt, hctot, if_neg (by omega)]
  simp only [htake, hdropA, hbody, htag, bytesToNat_key esk,
    dhShared_comm sk esk, ← hss]
  rw [hBdef, xorStream_xorStream, if_pos rfl]

theorem sealedBoxEncrypt_lt (pk : List Nat) (esk : Nat) (m : List Nat)
    (hm : ∀ b ∈ m, b < 256) :
    ∀ b ∈ sealedBoxEncrypt pk esk m, b < 256 := by
  intro b hb
  simp only [sealedBoxEncrypt, List.mem_append] at hb
  rcases hb with (h | h) | h
  · exact natToBytes_lt _ _ b h
  · exact xorStream_lt _ _ _ hm b h
  · exact tagBytes_lt _ _ b h

theorem sealedBoxEncrypt_ne (pk : List Nat) (esk₁ esk₂ : Nat)
    (m : List Nat)
    (h : natToBytes 32 (pubOf esk₁) ≠ natToBytes 32 (pubOf esk₂)) :
    sealedBoxEncrypt pk esk₁ m ≠ sealedBoxEncrypt pk esk₂ m := by
  intro heq
  apply h
  have h1 : (sealedBoxEncrypt pk esk₁ m).take 32
      = natToBytes 32 (pubOf esk₁) := by
    simp only [sealedBoxEncrypt, List.append_assoc]
    exact List.take_left' (natToBytes_length _ _)
  have h2 : (sealedBoxEncrypt pk esk₂ m).take 32
      = natToBytes 32 (pubOf esk₂) := by
    simp only [sealedBoxEncrypt, List.append_assoc]
    exact List.take_left' (natToBytes_length _ _)
  rw [← h1, ← h2, heq]

/-! ## Base64 codec

The script decodes the public key with a base64 decoder
(nacl.encoding.Base64Encoder) and re-encodes the ciphertext with
base64.b64encode.  The codec below is standard base64 with padding over
byte lists. -/

/-- Character of the standard base64 alphabet for a sextet value. -/
def sextetChar (n : Nat) : Char :=
  if n < 26 then Char.ofNat (65 + n)
  else if n < 52 then Char.ofNat (97 + (n - 26))
  else if n < 62 then Char.ofNat (48 + (n - 52))
  else if n = 62 then '+'
  else '/'

/-- Sextet value of a base64 alphabet character, none for other
characters. -/
def sextetVal (c : Char) : Option Nat :=
  if 65 ≤ c.toNat ∧ c.toNat ≤ 90 then some (c.toNat - 65)
  else if 97 ≤ c.toNat ∧ c.toNat ≤ 122 then some (c.toNat - 97 + 26)
  else if 48 ≤ c.toNat ∧ c.toNat ≤ 57 then some (c.toNat - 48 + 52)
  else if c = '+' then some 62
  else if c = '/' then some 63
  else none

/-- Standard base64 encoding of a byte list, with '=' padding. -/
def b64encode : List Nat → List Char
  | [] => []
  | [a] => [sextetChar (a / 4), sextetChar (a % 4 * 16), '=', '=']
  | [a, b] =>
      [sextetChar (a / 4), sextetChar (a % 4 * 16 + b / 16),
       sextetChar (b % 16 * 4), '=']
  | a :: b :: c :: rest =>
      sextetChar (a / 4) :: sextetChar (a % 4 * 16 + b / 16) ::
      sextetChar (b % 16 * 4 + c / 64) :: sextetChar (c % 64) ::
      b64encode rest

/-- Decode the final four-character block of a base64 string, which may
carry one or two '=' padding characters. -/
def decodeFinal (c1 c2 c3 c4 : Char) : Option (List Nat) :=
  if c3 = '=' then
    if c4 = '=' then
      match sextetVal c1, sextetVal c2 with
      | some s1, some s2 => some [s1 * 4 + s2 / 16]
      | _, _ => none
    else none
  else if c4 = '=' then
    match sextetVal c1, sextetVal c2, sextetVal c3 with
    | some s1, some s2, some s3 =>
        some [s1 * 4 + s2 / 16, s2 % 16 * 16 + s3 / 4]
    | _, _, _ => none
  else
    match sextetVal c1, sextetVal c2, sextetVal c3, sextetVal c4 with
    | some s1, some s2, some s3, some s4 =>
        some [s1 * 4 + s2 / 16, s2 % 16 * 16 + s3 / 4, s3 % 4 * 64 + s4]
    | _, _, _, _ => none

/-- Standard base64 decoding: four-character blocks, padding only in the
last block; none on any malformed input. -/
def b64decode : List Char → Option (List Nat)
  | [] => some []
  | c1 :: c2 :: c3 :: c4 :: rest =>
      if rest = [] then decodeFinal c1 c2 c3 c4
      else
        match sextetVal c1, sextetVal c2, sextetVal c3, sextetVal c4,
            b64decode rest with
        | some s1, some s2, some s3, some s4, some bs =>
            some ((s1 * 4 + s2 / 16) :: (s2 % 16 * 16 + s3 / 4) ::
              (s3 % 4 * 64 + s4) :: bs)
        | _, _, _, _, _ => none
  | _ => none

theorem sextetVal_sextetChar : ∀ n < 64, sextetVal (sextetChar n) = some n := by
  decide

theorem sextetChar_ne_pad : ∀ n < 64, sextetChar n ≠ '=' := by
  decide

theorem b64encode_ne_nil (bs : List Nat) (h : bs ≠ []) :
    b64encode bs ≠ [] := by
  match bs with
  | [] => exact absurd rfl h
  | [a] => simp [b64encode]
  | [a, b] => simp [b64encode]
  | a :: b :: c :: rest => simp [b64encode]

theorem b64decode_b64encode :
    ∀ bs : List Nat, (∀ b ∈ bs, b < 256) →
      b64decode (b64encode bs) = some bs
  | [], _ => rfl
  | [a], h => by
      have ha : a < 256 := h a (by simp)
      have h1 : sextetVal (sextetChar (a / 4)) = some (a / 4) :=
        sextetVal_sextetChar _ (by omega)
      have h2 : sextetVal (sextetChar (a % 4 * 16)) = some (a % 4 * 16) :=
        sextetVal_sextetChar _ (by omega)
      simp [b64encode, b64decode, decodeFinal, h1, h2]
      omega
  | [a, b], h => by
      have ha : a < 256 := h a (by simp)
      have hb : b < 256 := h b (by simp)
      have h1 : sextetVal (sextetChar (a / 4)) = some (a / 4) :=
        sextetVal_sextetChar _ (by omega)
      have h2 : sextetVal (sextetChar (a % 4 * 16 + b / 16))
          = some (a % 4 * 16 + b / 16) :=
        sextetVal_sextetChar _ (by omega)
      have h3 : sextetVal (sextetChar (b % 16 * 4)) = some (b % 16 * 4) :=
        sextetVal_sextetChar _ (by omega)
      have hne3 : sextetChar (b % 16 * 4) ≠ '=' :=
        sextetChar_ne_pad _ (by omega)
      simp [b64encode, b64decode, decodeFinal, h1, h2, h3, hne3]
      omega
  | a :: b :: c :: rest, h => by
      have ha : a < 256 := h a (by simp)
      have hb : b < 256 := h b (by simp)
      have hc : c < 256 := h c (by simp)
      have ih := b64decode_b64encode rest
        (fun x hx => h x (by simp [hx]))
      have h1 : sextetVal (sextetChar (a / 4)) = some (a / 4) :=
        sextetVal_sextetChar _ (by omega)
      have h2 : sextetVal (sextetChar (a % 4 * 16 + b / 16))
          = some (a % 4 * 16 + b / 16) :=
        sextetVal_sextetChar _ (by omega)
      have h3 : sextetVal (sextetChar (b % 16 * 4 + c / 64))
          = some (b % 16 * 4 + c / 64) :=
        sextetVal_sextetChar _ (by omega)
      have h4 : sextetVal (sextetChar (c % 64)) = some (c % 64) :=
        sextetVal_sextetChar _ (by omega)
      rcases eq_or_ne rest [] with hr | hr
      · subst hr
        have hne3 : sextetChar (b % 16 * 4 + c / 64) ≠ '=' :=
          sextetChar_ne_pad _ (by omega)
        have hne4 : sextetChar (c % 64) ≠ '=' :=
          sextetChar_ne_pad _ (by omega)
        simp [b64encode, b64decode, decodeFinal, h1, h2, h3, h4,
          hne3, hne4]
        omega
      · have henc : b64encode rest ≠ [] := b64encode_ne_nil rest hr
        simp [b64encode, b64decode, henc, h1, h2, h3, h4, ih]
        omega

/-! ## The CLI script

Embedding of encrypt_secrets.py.  The script checks the argument count,
builds a PublicKey from the base64 key text (the library decodes the
base64 and requires exactly 32 bytes), seals the UTF-8 bytes of the
secret, and prints the base64 ciphertext.  A wrong argument count prints
the usage line on standard output and exits 1; an uncaught library
exception leaves standard output empty, surfaces the error on standard
error, and exits 1 (the Python interpreter's exit status for an uncaught
exception). -/

/-- The usage line printed by the script, a fixed literal in the source
(it names encrypt_secret.py and never substitutes the actual program
name). -/
def usageLine : String :=
  "Usage: python encrypt_secret.py <base64_public_key> <secret_value>"

/-- Modelled from the spec: the error text the library surfaces on a key
decode failure; only its presence, not its content, is specified. -/
def libraryError : String :=
  "nacl.exceptions.CryptoError: invalid public key"

/-- UTF-8 bytes of a string, as natural numbers below 256; the byte list
underlying String.toUTF8. -/
def utf8Bytes (s : String) : List Nat :=
  (s.data.flatMap String.utf8EncodeChar).map UInt8.toNat

/-- PublicKey construction from base64 text: decode the base64, then
require exactly 32 bytes (crypto_box_PUBLICKEYBYTES), as the library
does; none models the raised exception. -/
def pyPublicKey (k : String) : Option (List Nat) :=
  match b64decode k.toList with
  | none => none
  | some bs => if bs.length = 32 then some bs else none

/-- Observable outcome of one process invocation: exit status and the
lines written to standard output and standard error. -/
structure RunResult where
  exitCode : Nat
  stdout : List String
  stderr : List String
  deriving DecidableEq

/-- The whole script as a function of the argument vector (argv, with
the program name at index 0) and the ephemeral scalar the library draws
internally for the sealed box. -/
def encryptSecrets (argv : List String) (esk : Nat) : RunResult :=
  if argv.length ≠ 3 then ⟨1, [usageLine], []⟩
  else
    match pyPublicKey (argv.getD 1 "") with
    | none => ⟨1, [], [libraryError]⟩
    | some pk =>
        ⟨0,
         [String.mk (b64encode (sealedBoxEncrypt pk esk
           (utf8Bytes (argv.getD 2 ""))))],
         []⟩

theorem utf8Bytes_lt (s : String) : ∀ b ∈ utf8Bytes s, b < 256 := by
  intro b hb
  simp only [utf8Bytes, List.mem_map] at hb
  obtain ⟨u, _, hu⟩ := hb
  subst hu
  exact u.toNat_lt

theorem encryptSecrets_ok (prog k s : String) (esk : Nat) (pk : List Nat)
    (h : pyPublicKey k = some pk) :
    encryptSecrets [prog, k, s] esk
      = ⟨0,
         [String.mk (b64encode (sealedBoxEncrypt pk esk (utf8Bytes s)))],
         []⟩ := by
  simp [encryptSecrets, List.getD, h]

/-! ## Claims -/

/-- Claim C1: for every valid key pair and every plaintext string p,
decrypting the ciphertext produced by sealing to the base64-encoded
public key with the matching private key yields p. -/
theorem claim_C1_roundtrip (sk esk : Nat) (p : String) (kb64 : String)
    (h : pyPublicKey kb64 = some (natToBytes 32 (pubOf sk))) :
    sealedBoxDecrypt sk
      (sealedBoxEncrypt ((pyPublicKey kb64).getD []) esk (utf8Bytes p))
      = some (utf8Bytes p) := by
  rw [h, Option.getD_some]
  exact sealedBoxDecrypt_sealedBoxEncrypt sk esk (utf8Bytes p)

theorem claim_C1_roundtrip_witness :
    pyPublicKey "CQAAAAAAAAAAAAAAAAAAAAAAAAAAAAAAAAAAAAAAAAA="
        = some (natToBytes 32 (pubOf 1))
      ∧ sealedBoxDecrypt 1
          (sealedBoxEncrypt
            ((pyPublicKey
              "CQAAAAAAAAAAAAAAAAAAAAAAAAAAAAAAAAAAAAAAAAA=").getD [])
            7 (utf8Bytes "secret"))
          = some (utf8Bytes "secret") :=
  ⟨by decide, claim_C1_roundtrip 1 7 "secret" _ (by decide)⟩

/-- Claim C2: when the public-key argument is not valid base64, or
decodes to a byte length other than 32, the process exits non-zero, the
library error appears on standard error, and no ciphertext reaches
standard output. -/
theorem claim_C2_key_error (prog k s : String) (esk : Nat)
    (h : b64decode k.toList = none
      ∨ ∃ bs, b64decode k.toList = some bs ∧ bs.length ≠ 32) :
    (encryptSecrets [prog, k, s] esk).exitCode ≠ 0
      ∧ (encryptSecrets [prog, k, s] esk).stdout = []
      ∧ (encryptSecrets [prog, k, s] esk).stderr ≠ [] := by
  have hk : pyPublicKey k = none := by
    unfold pyPublicKey
    rcases h with h | ⟨bs, hbs, hlen⟩
    · rw [h]
    · rw [hbs]; simp [hlen]
  simp [encryptSecrets, List.getD, hk]

theorem claim_C2_key_error_witness :
    ((encryptSecrets ["p", "not-base64-@@@", "s"] 0).exitCode ≠ 0
      ∧ (encryptSecrets ["p", "not-base64-@@@", "s"] 0).stdout = []
      ∧ (encryptSecrets ["p", "not-base64-@@@", "s"] 0).stderr ≠ [])
    ∧ ((encryptSecrets ["p", "AAAAAAAAAAAAAA==", "s"] 0).exitCode ≠ 0
      ∧ (encryptSecrets ["p", "AAAAAAAAAAAAAA==", "s"] 0).stdout = []
      ∧ (encryptSecrets ["p", "AAAAAAAAAAAAAA==", "s"] 0).stderr ≠ []) :=
  ⟨claim_C2_key_error "p" "not-base64-@@@" "s" 0 (Or.inl (by decide)),
   claim_C2_key_error "p" "AAAAAAAAAAAAAA==" "s" 0
     (Or.inr ⟨List.replicate 10 0, by decide, by decide⟩)⟩

/-- Claim C3: any invocation with an argument count other than three
(program name plus exactly two user arguments) prints the usage line
exactly once on standard output, exits with status 1, and produces no
other output. -/
theorem claim_C3_usage (argv : List String) (esk : Nat)
    (h : argv.length ≠ 3) :
    encryptSecrets argv esk = ⟨1, [usageLine], []⟩ := by
  simp [encryptSecrets, h]

theorem claim_C3_usage_witness :
    encryptSecrets ["p"] 0 = ⟨1, [usageLine], []⟩
      ∧ encryptSecrets ["p", "a"] 0 = ⟨1, [usageLine], []⟩
      ∧ encryptSecrets ["p", "a", "b", "c"] 0 = ⟨1, [usageLine], []⟩ :=
  ⟨claim_C3_usage ["p"] 0 (by decide),
   claim_C3_usage ["p", "a"] 0 (by decide),
   claim_C3_usage ["p", "a", "b", "c"] 0 (by decide)⟩

/-- Claim C4: the ciphertext length is a fixed 48-byte overhead
(32 ephemeral-key bytes plus a 16-byte tag) plus the length of the
UTF-8 encoding of the plaintext. -/
theorem claim_C4_ciphertext_length (pk : List Nat) (esk : Nat)
    (p : String) :
    (sealedBoxEncrypt pk esk (utf8Bytes p)).length
      = 48 + (utf8Bytes p).length :=
  sealedBoxEncrypt_length pk esk (utf8Bytes p)

/-- Claim C5: on every execution path that ends in an error the standard
output carries no ciphertext: it is either empty or exactly the usage
line. -/
theorem claim_C5_no_partial_output (argv : List String) (esk : Nat)
    (h : (encryptSecrets argv esk).exitCode ≠ 0) :
    (encryptSecrets argv esk).stdout = []
      ∨ (encryptSecrets argv esk).stdout = [usageLine] := by
  by_cases h3 : argv.length = 3
  · obtain ⟨a, b, c, rfl⟩ := List.length_eq_three.mp h3
    cases hk : pyPublicKey b with
    | none => left; simp [encryptSecrets, List.getD, hk]
    | some pk =>
        exfalso
        apply h
        simp [encryptSecrets, List.getD, hk]
  · right; simp [encryptSecrets, h3]

theorem claim_C5_no_partial_output_witness :
    (encryptSecrets ["p", "not-base64-@@@", "s"] 0).exitCode ≠ 0
      ∧ ((encryptSecrets ["p", "not-base64-@@@", "s"] 0).stdout = []
        ∨ (encryptSecrets ["p", "not-base64-@@@", "s"] 0).stdout
            = [usageLine]) :=
  ⟨by decide, claim_C5_no_partial_output _ 0 (by decide)⟩

/-- Claim C6: with identical inputs, two invocations drawing distinct
fresh ephemeral keys produce different ciphertexts, yet both decrypt to
the same plaintext under the matching private key. -/
theorem claim_C6_ephemeral_freshness (sk esk₁ esk₂ : Nat) (p : String)
    (h : natToBytes 32 (pubOf esk₁) ≠ natToBytes 32 (pubOf esk₂)) :
    sealedBoxEncrypt (natToBytes 32 (pubOf sk)) esk₁ (utf8Bytes p)
        ≠ sealedBoxEncrypt (natToBytes 32 (pubOf sk)) esk₂ (utf8Bytes p)
      ∧ sealedBoxDecrypt sk
          (sealedBoxEncrypt (natToBytes 32 (pubOf sk)) esk₁ (utf8Bytes p))
          = some (utf8Bytes p)
      ∧ sealedBoxDecrypt sk
          (sealedBoxEncrypt (natToBytes 32 (pubOf sk)) esk₂ (utf8Bytes p))
          = some (utf8Bytes p) :=
  ⟨sealedBoxEncrypt_ne _ _ _ _ h,
   sealedBoxDecrypt_sealedBoxEncrypt _ _ _,
   sealedBoxDecrypt_sealedBoxEncrypt _ _ _⟩

theorem claim_C6_ephemeral_freshness_witness :
    natToBytes 32 (pubOf 1) ≠ natToBytes 32 (pubOf 2)
      ∧ (sealedBoxEncrypt (natToBytes 32 (pubOf 3)) 1 (utf8Bytes "hi")
          ≠ sealedBoxEncrypt (natToBytes 32 (pubOf 3)) 2 (utf8Bytes "hi")
        ∧ sealedBoxDecrypt 3
            (sealedBoxEncrypt (natToBytes 32 (pubOf 3)) 1
              (utf8Bytes "hi"))
            = some (utf8Bytes "hi")
        ∧ sealedBoxDecrypt 3
            (sealedBoxEncrypt (natToBytes 32 (pubOf 3)) 2
              (utf8Bytes "hi"))
            = some (utf8Bytes "hi")) :=
  ⟨by decide, claim_C6_ephemeral_freshness 3 1 2 "hi" (by decide)⟩

/-- Claim C7: with exactly two user arguments and a public key that
decodes successfully, the process exits 0 and writes exactly one line to
standard output, the base64 encoding of the ciphertext. -/
theorem claim_C7_success (prog k s : String) (esk : Nat) (pk : List Nat)
    (h : pyPublicKey k = some pk) :
    (encryptSecrets [prog, k, s] esk).exitCode = 0
      ∧ (encryptSecrets [prog, k, s] esk).stdout
          = [String.mk (b64encode
              (sealedBoxEncrypt pk esk (utf8Bytes s)))] := by
  rw [encryptSecrets_ok prog k s esk pk h]
  exact ⟨rfl, rfl⟩

theorem claim_C7_success_witness :
    pyPublicKey "AAAAAAAAAAAAAAAAAAAAAAAAAAAAAAAAAAAAAAAAAAA="
        = some (List.replicate 32 0)
      ∧ ((encryptSecrets
          ["p", "AAAAAAAAAAAAAAAAAAAAAAAAAAAAAAAAAAAAAAAAAAA=", "s"]
          0).exitCode = 0
        ∧ (encryptSecrets
            ["p", "AAAAAAAAAAAAAAAAAAAAAAAAAAAAAAAAAAAAAAAAAAA=", "s"]
            0).stdout
            = [String.mk (b64encode
                (sealedBoxEncrypt (List.replicate 32 0) 0
                  (utf8Bytes "s")))]) :=
  ⟨by decide, claim_C7_success "p" _ "s" 0 (List.replicate 32 0)
    (by decide)⟩

/-- Claim C8: on a wrong argument count the printed usage message is the
fixed literal naming encrypt_secret.py, regardless of how the program was
invoked. -/
theorem claim_C8_usage_constant (argv : List String) (esk : Nat)
    (h : argv.length ≠ 3) :
    (encryptSecrets argv esk).stdout
      = ["Usage: python encrypt_secret.py <base64_public_key> <secret_value>"] := by
  simp [encryptSecrets, h, usageLine]

theorem claim_C8_usage_constant_witness :
    (encryptSecrets ["./some/other/name.py"] 0).stdout
      = ["Usage: python encrypt_secret.py <base64_public_key> <secret_value>"] :=
  claim_C8_usage_constant ["./some/other/name.py"] 0 (by decide)

/-- Claim C9: the empty string is accepted as the secret: with a valid
32-byte key the process exits 0 and prints the base64 encoding of a
ciphertext of exactly the 48 overhead bytes. -/
theorem claim_C9_empty_secret (prog k : String) (esk : Nat)
    (pk : List Nat) (h : pyPublicKey k = some pk) :
    (encryptSecrets [prog, k, ""] esk).exitCode = 0
      ∧ (encryptSecrets [prog, k, ""] esk).stdout
          = [String.mk (b64encode (sealedBoxEncrypt pk esk []))]
      ∧ (sealedBoxEncrypt pk esk []).length = 48 := by
  rw [encryptSecrets_ok prog k "" esk pk h]
  refine ⟨rfl, rfl, ?_⟩
  rw [sealedBoxEncrypt_length]
  rfl

theorem claim_C9_empty_secret_witness :
    pyPublicKey "AAAAAAAAAAAAAAAAAAAAAAAAAAAAAAAAAAAAAAAAAAA="
        = some (List.replicate 32 0)
      ∧ ((encryptSecrets
          ["p", "AAAAAAAAAAAAAAAAAAAAAAAAAAAAAAAAAAAAAAAAAAA=", ""]
          0).exitCode = 0
        ∧ (encryptSecrets
            ["p", "AAAAAAAAAAAAAAAAAAAAAAAAAAAAAAAAAAAAAAAAAAA=", ""]
            0).stdout
            = [String.mk (b64encode
                (sealedBoxEncrypt (List.replicate 32 0) 0 []))]
        ∧ (sealedBoxEncrypt (List.replicate 32 0) 0 []).length = 48) :=
  ⟨by decide, claim_C9_empty_secret "p" _ 0 (List.replicate 32 0)
    (by decide)⟩

/-- Claim C10: on every successful invocation, base64-decoding the
single printed line yields exactly the ciphertext byte sequence returned
by the sealed-box encryption. -/
theorem claim_C10_output_roundtrip (prog k s : String) (esk : Nat)
    (pk : List Nat) (h : pyPublicKey k = some pk) :
    ∀ line ∈ (encryptSecrets [prog, k, s] esk).stdout,
      b64decode line.toList
        = some (sealedBoxEncrypt pk esk (utf8Bytes s)) := by
  intro line hline
  rw [encryptSecrets_ok prog k s esk pk h] at hline
  simp only [List.mem_singleton] at hline
  subst hline
  exact b64decode_b64encode _
    (sealedBoxEncrypt_lt pk esk _ (utf8Bytes_lt s))

theorem claim_C10_output_roundtrip_witness :
    pyPublicKey "AAAAAAAAAAAAAAAAAAAAAAAAAAAAAAAAAAAAAAAAAAA="
        = some (List.replicate 32 0)
      ∧ ∀ line ∈ (encryptSecrets
          ["p", "AAAAAAAAAAAAAAAAAAAAAAAAAAAAAAAAAAAAAAAAAAA=", "hi"]
          0).stdout,
          b64decode line.toList
            = some (sealedBoxEncrypt (List.replicate 32 0) 0
                (utf8Bytes "hi")) :=
  ⟨by decide, claim_C10_output_roundtrip "p" _ "hi" 0
    (List.replicate 32 0) (by decide)⟩
